import Mathlib

/-!
A shallow embedding in Lean 4 of the lv2 port-collection and atom-space
subsystems, together with theorems about port resolution, bounds- and
alignment-checked cursor reads, the atom write-reservation protocol, and the
growable backing store.

Pointers are modelled as natural-number addresses with `0` playing the role of
the null pointer, byte buffers as total functions `Nat → Nat` or lists of
bytes, and machine integers as `Nat` with explicit reduction modulo `2 ^ 32`
where the wire format fixes a width.
-/

/-- A raw pointer (`*mut c_void`) modelled as a natural-number address;
`0` is the null pointer. -/
abbrev RawPtr := Nat

/-- `core::ptr::NonNull`: an address together with the evidence that it is
not null. -/
def NonNull := { p : RawPtr // p ≠ 0 }

/-- `NonNull::new`: `some` exactly when the address is non-null.  This is the
only validation performed on a cached port pointer. -/
def NonNull.new (p : RawPtr) : Option NonNull :=
  if h : p = 0 then none else some ⟨p, h⟩

/-- The fragment of the `PortType` trait used by `InputPort`
(`src/core/src/port_collection/input.rs`): the associated input port type is
`α`, and `input_from_raw` reinterprets a non-null pointer for a given sample
count.  The concrete trait implementations live outside this subsystem, so
the reinterpretation itself stays abstract; crucially, it can only be applied
to a `NonNull` pointer, exactly as in the source. -/
structure PortType (α : Type) where
  input_from_raw : NonNull → Nat → α

/-- `InputPort<T>` from `src/core/src/port_collection/input.rs`: a handle
holding the resolved typed view. -/
structure InputPort (α : Type) where
  port : α

/-- `InputPort::from_connections` from
`src/core/src/port_collection/input.rs`:
`Some(Self { port: T::input_from_raw(NonNull::new(*cache)?, sample_count) })`.
The `?` operator makes the whole resolution `none` when `NonNull::new`
returns `none`, i.e. when the cached pointer is null. -/
def InputPort.from_connections {α : Type} (T : PortType α) (cache : RawPtr)
    (sample_count : Nat) : Option (InputPort α) := do
  let p ← NonNull.new cache
  pure { port := T.input_from_raw p sample_count }

/-- `<Option<T> as PortCollection>::from_connections` from
`src/core/src/port_collection.rs`, line 90:
`Some(T::from_connections(cache, sample_count))`.  The inner collection `T`
is represented by its resolution function `inner` over its cache type `κ`. -/
def Option.from_connections {κ : Type} {α : Type} (inner : κ → Nat → Option α)
    (cache : κ) (sample_count : Nat) : Option (Option α) :=
  some (inner cache sample_count)

/-- `<() as PortCollection>::from_connections` from
`src/core/src/port_collection.rs`, lines 65-67: always `Some(())`. -/
def Unit.from_connections (_cache : Unit) (_sample_count : Nat) : Option Unit :=
  some ()

/-- A composite collection of two required input ports.  Modelled from the
spec: the derive macro that produces `from_connections` for a user struct of
ports is not part of this subsystem; per the spec, a composite collection
resolves each member from its own slot of the cache and returns nothing if
any required member fails ("Returns nothing ... if any required pointer is
missing"). -/
structure PairPorts (α β : Type) where
  fst : InputPort α
  snd : InputPort β

/-- Modelled from the spec: resolution of a two-required-port collection,
chaining each member resolution with `?` so that any member failure makes the
whole resolution fail. -/
def PairPorts.from_connections {α β : Type} (Ta : PortType α) (Tb : PortType β)
    (cache : RawPtr × RawPtr) (sample_count : Nat) : Option (PairPorts α β) := do
  let a ← InputPort.from_connections Ta cache.1 sample_count
  let b ← InputPort.from_connections Tb cache.2 sample_count
  pure ⟨a, b⟩

/-- `connect_port`: the host binds port `index` to the raw address `ptr`;
the cache is an association of port indices to raw pointers, and the last
write for a given index wins. -/
def connect_port (cache : Nat → RawPtr) (index : Nat) (ptr : RawPtr) :
    Nat → RawPtr :=
  fun j => if j = index then ptr else cache j

/-- Apply a whole sequence of `connect_port` calls, in order, to an initial
cache state. -/
def apply_connections (cache : Nat → RawPtr) :
    List (Nat × RawPtr) → (Nat → RawPtr)
  | [] => cache
  | (i, p) :: rest => apply_connections (connect_port cache i p) rest

/-- The last pointer written for a given index by a sequence of
`connect_port` calls, if any. -/
def last_write : List (Nat × RawPtr) → Nat → Option RawPtr
  | [], _ => none
  | (j, p) :: rest, i =>
    match last_write rest i with
    | some q => some q
    | none => if j = i then some p else none

/-- Read the two slots of a function-shaped cache into the pair-shaped cache
used by `PairPorts`. -/
def pair_cache (cache : Nat → RawPtr) : RawPtr × RawPtr :=
  (cache 0, cache 1)

/-- A concrete port type used to instantiate the generic theorems: the
resolved view records the raw address and the sample count. -/
def PtrAndCount : PortType (Nat × Nat) :=
  ⟨fun p n => (p.val, n)⟩

/-- Modelled from the spec: the `Space` implementation in
`src/atom/src/space.rs` only re-exports submodules whose sources are not part
of this snapshot.  Per the spec (section 3), a `Space` is
"{ base: address, length: byte-count }": here the region content is a list of
bytes whose length is the byte-count, starting at address `base`. -/
structure Space where
  base : Nat
  data : List Nat

/-- Modelled from the spec: `SpaceCursor` is
"{ space: reference, position: byte-offset }"; the space it reads is passed
explicitly to each operation. -/
structure SpaceCursor where
  position : Nat

/-- Modelled from the spec: `SpaceCursor::read::<T>()` for a type of size
`size` and alignment `align`.  Reading requires
(a) `position + size_of::<T>() <= length` and
(b) `(base + position) % align_of::<T>() == 0`; on success it returns the
bytes of the value and the advanced cursor, on violation of either condition
it returns `none` and the unchanged cursor. -/
def SpaceCursor.read (s : Space) (cur : SpaceCursor) (size align : Nat) :
    Option (List Nat) × SpaceCursor :=
  if cur.position + size ≤ s.data.length ∧ (s.base + cur.position) % align = 0 then
    (some ((s.data.drop cur.position).take size), ⟨cur.position + size⟩)
  else
    (none, cur)

/-- The error values of the writer path, from the spec's error taxonomy
(section 7). -/
inductive AtomError where
  | outOfSpace
  | invalidReservationOrder
deriving DecidableEq

/-- Overwrite the bytes of a buffer starting at `start` with the list `bs`,
leaving every other index unchanged. -/
def setBytes : (Nat → Nat) → Nat → List Nat → (Nat → Nat)
  | buf, _, [] => buf
  | buf, start, b :: rest =>
    setBytes (fun i => if i = start then b else buf i) (start + 1) rest

/-- Read `n` consecutive bytes of a buffer starting at `start`. -/
def readBytes (buf : Nat → Nat) (start : Nat) : Nat → List Nat
  | 0 => []
  | n + 1 => buf start :: readBytes buf (start + 1) n

/-- Encode a `u32` as its four bytes in the host's (little-endian) native
byte order. -/
def encodeU32 (n : Nat) : List Nat :=
  [n % 256, n / 256 % 256, n / 65536 % 256, n / 16777216 % 256]

/-- Decode the four bytes at `off` as a native-byte-order `u32`. -/
def decodeU32 (buf : Nat → Nat) (off : Nat) : Nat :=
  buf off + 256 * buf (off + 1) + 65536 * buf (off + 2)
    + 16777216 * buf (off + 3)

/-- Modelled from the spec: an `AtomSpaceWriter` reservation record,
"{ header_offset: byte-offset, payload_start: byte-offset }". -/
structure Reservation where
  header_offset : Nat
  payload_start : Nat

/-- Modelled from the spec: the `AtomSpaceWriter` write cursor over a
fixed-capacity backing space.  `buf` is the backing bytes, `cap` the space's
total length, `pos` the current write position, `reservations` the LIFO stack
of open reservation records, and `exhausted` the recorded
"space exhausted" state. -/
structure AtomSpaceWriter where
  buf : Nat → Nat
  cap : Nat
  pos : Nat
  reservations : List Reservation
  exhausted : Bool

/-- A fresh writer over a zeroed fixed backing of length `cap`. -/
def AtomSpaceWriter.new (cap : Nat) : AtomSpaceWriter :=
  { buf := fun _ => 0, cap := cap, pos := 0, reservations := [], exhausted := false }

/-- Modelled from the spec: `write_bytes` extends the payload; it fails with
`OutOfSpace` if the write would exceed the space's total length, in which
case the writer records the exhausted state and the buffer is untouched; once
exhausted, every write is a no-op returning the same error. -/
def AtomSpaceWriter.write_bytes (w : AtomSpaceWriter) (bs : List Nat) :
    AtomSpaceWriter × Option AtomError :=
  if w.exhausted then
    (w, some .outOfSpace)
  else if w.pos + bs.length ≤ w.cap then
    ({ w with buf := setBytes w.buf w.pos bs, pos := w.pos + bs.length }, none)
  else
    ({ w with exhausted := true }, some .outOfSpace)

/-- Modelled from the spec: `reserve_header(type_urid)` writes a placeholder
header (size = 0 sentinel, type = the given URID) at the current write
position, pushes a reservation record
`{ header_offset, payload_start = header_offset + header_size }`, and
advances the write position past the 8-byte header. -/
def AtomSpaceWriter.reserve_header (w : AtomSpaceWriter) (type_urid : Nat) :
    AtomSpaceWriter × Option AtomError :=
  let header_offset := w.pos
  match w.write_bytes (encodeU32 0 ++ encodeU32 type_urid) with
  | (w', none) =>
    ({ w' with reservations := ⟨header_offset, header_offset + 8⟩ :: w'.reservations },
      none)
  | (w', some e) => (w', some e)

/-- Modelled from the spec: `commit()` pops the innermost reservation record,
computes `size = current_write_position - payload_start`, and patches the
header's size field in place; committing with no open reservation is the
`InvalidReservationOrder` contract violation. -/
def AtomSpaceWriter.commit (w : AtomSpaceWriter) :
    AtomSpaceWriter × Option AtomError :=
  match w.reservations with
  | [] => (w, some .invalidReservationOrder)
  | r :: rest =>
    ({ w with
        buf := setBytes w.buf r.header_offset (encodeU32 (w.pos - r.payload_start)),
        reservations := rest },
      none)

/-- Modelled from the spec: after a commit the writer may advance the logical
write position to the next 8-byte alignment boundary, writing zero padding
bytes as needed, so that a sibling atom starts aligned. -/
def AtomSpaceWriter.pad_to_boundary (w : AtomSpaceWriter) :
    AtomSpaceWriter × Option AtomError :=
  w.write_bytes (List.replicate ((8 - w.pos % 8) % 8) 0)

/-- Perform a sequence of `write_bytes` calls, stopping at the first
failure. -/
def AtomSpaceWriter.write_chunks (w : AtomSpaceWriter) :
    List (List Nat) → AtomSpaceWriter × Option AtomError
  | [] => (w, none)
  | c :: cs =>
    match w.write_bytes c with
    | (w', none) => w'.write_chunks cs
    | (w', some e) => (w', some e)

/-- The total number of payload bytes in a sequence of chunks. -/
def totalLen (cs : List (List Nat)) : Nat :=
  (cs.map List.length).sum

/-- The full reservation protocol for one atom on a fresh writer of capacity
`cap`: reserve the header, write the payload chunks, commit. -/
def write_atom (cap type_urid : Nat) (chunks : List (List Nat)) :
    AtomSpaceWriter × Option AtomError :=
  match (AtomSpaceWriter.new cap).reserve_header type_urid with
  | (w, none) =>
    match w.write_chunks chunks with
    | (w', none) => w'.commit
    | r => r
  | r => r

/-- Modelled from the spec: `VecSpace` is an owned, growable backing store.
`mem` is the whole address space, `base` the current address of the buffer,
`cap` its current capacity and `len` the allocated length.  Offsets index
from `base`. -/
structure VecSpace where
  mem : Nat → Nat
  base : Nat
  cap : Nat
  len : Nat

/-- The logical content of a `VecSpace` at a given offset: the byte at raw
address `base + offset`. -/
def VecSpace.byte_at (v : VecSpace) (offset : Nat) : Nat :=
  v.mem (v.base + offset)

/-- Modelled from the spec: `allocate(n)` grows the buffer by `n` bytes and
returns the offset at which the new region begins.  If the current capacity
is insufficient the backing store is relocated to a fresh address with
amortized (doubling) growth, and the existing content is copied to the new
location. -/
def VecSpace.allocate (v : VecSpace) (n : Nat) : VecSpace × Nat :=
  if v.len + n ≤ v.cap then
    ({ v with len := v.len + n }, v.len)
  else
    let newCap := max (2 * v.cap) (v.len + n)
    let newBase := v.base + v.cap
    ({ mem := fun i =>
          if newBase ≤ i ∧ i < newBase + v.len then v.mem (v.base + (i - newBase))
          else v.mem i,
        base := newBase, cap := newCap, len := v.len + n },
      v.len)

/-- Perform a sequence of `allocate` calls, keeping only the final space. -/
def VecSpace.allocate_all (v : VecSpace) : List Nat → VecSpace
  | [] => v
  | n :: ns => VecSpace.allocate_all (v.allocate n).1 ns

/-- A concrete space used to instantiate cursor theorems. -/
def exampleSpace : Space :=
  ⟨0, [1, 2, 3, 4]⟩

/-- A concrete growable space used to instantiate `VecSpace` theorems: one
byte long, at full capacity, so that the next allocation relocates it. -/
def demoVec : VecSpace :=
  ⟨fun i => i, 0, 1, 1⟩

/-- The writer state after reserving one atom header on a fresh writer of
capacity `cap`: the placeholder header occupies bytes 0 to 7, the write
position is 8, and one reservation record is open. -/
def headerWriter (cap type_urid : Nat) : AtomSpaceWriter :=
  { buf := setBytes (fun _ => 0) 0 (encodeU32 0 ++ encodeU32 type_urid),
    cap := cap, pos := 8, reservations := [⟨0, 8⟩], exhausted := false }

lemma apply_connections_eq (l : List (Nat × RawPtr)) :
    ∀ (c : Nat → RawPtr) (i : Nat),
      apply_connections c l i = (last_write l i).getD (c i) := by
  induction l with
  | nil => intro c i; rfl
  | cons a rest ih =>
    obtain ⟨j, p⟩ := a
    intro c i
    show apply_connections (connect_port c j p) rest i = _
    rw [ih]
    cases hlw : last_write rest i with
    | some q => simp [last_write, hlw]
    | none =>
      simp only [last_write, hlw, connect_port]
      by_cases hij : i = j
      · simp [hij]
      · have hji : ¬(j = i) := fun hj => hij hj.symm
        simp [hij, hji]

/-- C1: if the cached pointer for a required (non-optional) port is null,
`from_connections` returns `none` without dereferencing the null pointer (the
reinterpretation `input_from_raw` only ever receives a `NonNull` value); in
particular `InputPort::from_connections` returns `none` whenever its cached
pointer is null, regardless of the sample count or of any other slot. -/
theorem input_from_connections_null {α β : Type} (Ta : PortType α) (Tb : PortType β)
    (cache : RawPtr × RawPtr) (sample_count : Nat)
    (h : cache.1 = 0 ∨ cache.2 = 0) :
    InputPort.from_connections Ta 0 sample_count = none
    ∧ PairPorts.from_connections Ta Tb cache sample_count = none := by
  refine ⟨by simp [InputPort.from_connections, NonNull.new], ?_⟩
  rcases h with h | h
  · simp [PairPorts.from_connections, InputPort.from_connections, NonNull.new, h]
  · cases hx : InputPort.from_connections Ta cache.1 sample_count <;>
      simp [PairPorts.from_connections, InputPort.from_connections, NonNull.new, h, hx]

/-- Witness for C1 at the concrete cache `(0, 3)` with sample count `5`. -/
theorem input_from_connections_null_witness :
    (((0 : RawPtr), (3 : RawPtr)).1 = 0 ∨ ((0 : RawPtr), (3 : RawPtr)).2 = 0)
    ∧ (InputPort.from_connections PtrAndCount 0 5 = none
        ∧ PairPorts.from_connections PtrAndCount PtrAndCount (0, 3) 5 = none) :=
  ⟨Or.inl rfl,
    input_from_connections_null PtrAndCount PtrAndCount (0, 3) 5 (Or.inl rfl)⟩

/-- C2: the optional layer recurses into the inner collection's own
resolution: when the inner resolution fails (for example on a null required
pointer) the optional collection resolves to a present-but-absent
`some none`, and when the inner resolution succeeds it resolves to
`some (some inner)`. -/
theorem option_from_connections_recurses {κ α β : Type}
    (inner : κ → Nat → Option α) (Ta : PortType β) (c c' : κ)
    (sample_count : Nat) (x : α)
    (hfail : inner c sample_count = none)
    (hok : inner c' sample_count = some x) :
    Option.from_connections inner c sample_count = some none
    ∧ Option.from_connections inner c' sample_count = some (some x)
    ∧ Option.from_connections (InputPort.from_connections Ta) 0 sample_count
        = some none := by
  refine ⟨by simp [Option.from_connections, hfail], by simp [Option.from_connections, hok], ?_⟩
  simp [Option.from_connections, InputPort.from_connections, NonNull.new]

/-- Witness for C2: the inner collection is a required input port, failing on
the null cache `0` and succeeding on the cache `1`. -/
theorem option_from_connections_recurses_witness :
    InputPort.from_connections PtrAndCount 0 5 = none
    ∧ InputPort.from_connections PtrAndCount 1 5 = some ⟨(1, 5)⟩
    ∧ (Option.from_connections (InputPort.from_connections PtrAndCount) 0 5 = some none
        ∧ Option.from_connections (InputPort.from_connections PtrAndCount) 1 5
            = some (some ⟨(1, 5)⟩)
        ∧ Option.from_connections (InputPort.from_connections PtrAndCount) 0 5
            = some none) :=
  ⟨rfl, rfl,
    option_from_connections_recurses
      (InputPort.from_connections PtrAndCount) PtrAndCount 0 1 5 ⟨(1, 5)⟩ rfl rfl⟩

/-- C7: resolution is a pure function of the cache's final state: two
sequences of `connect_port` calls with the same last write per index resolve
to the same collection, and two invocations of `from_connections` on the same
cache yield equal collections. -/
theorem from_connections_pure {α β : Type} (Ta : PortType α) (Tb : PortType β)
    (c0 : Nat → RawPtr) (l1 l2 : List (Nat × RawPtr)) (sample_count : Nat)
    (h : ∀ i, last_write l1 i = last_write l2 i) :
    PairPorts.from_connections Ta Tb (pair_cache (apply_connections c0 l1)) sample_count
      = PairPorts.from_connections Ta Tb (pair_cache (apply_connections c0 l2)) sample_count
    ∧ ∀ (c : RawPtr × RawPtr),
        PairPorts.from_connections Ta Tb c sample_count
          = PairPorts.from_connections Ta Tb c sample_count := by
  have hc : apply_connections c0 l1 = apply_connections c0 l2 := by
    funext i
    rw [apply_connections_eq l1 c0 i, apply_connections_eq l2 c0 i, h i]
  exact ⟨by rw [hc], fun c => rfl⟩

/-- Witness for C7: binding port 0 twice yields the same resolution as
binding only the final pointer. -/
theorem from_connections_pure_witness :
    (∀ i, last_write [(0, 5), (0, 7)] i = last_write [(0, 7)] i)
    ∧ (PairPorts.from_connections PtrAndCount PtrAndCount
          (pair_cache (apply_connections (fun _ => 3) [(0, 5), (0, 7)])) 9
        = PairPorts.from_connections PtrAndCount PtrAndCount
          (pair_cache (apply_connections (fun _ => 3) [(0, 7)])) 9
      ∧ ∀ (c : RawPtr × RawPtr),
          PairPorts.from_connections PtrAndCount PtrAndCount c 9
            = PairPorts.from_connections PtrAndCount PtrAndCount c 9) := by
  have hw : ∀ i, last_write [(0, 5), (0, 7)] i = last_write [(0, 7)] i := by
    intro i
    by_cases h : (0 : Nat) = i <;> simp [last_write, h]
  exact ⟨hw, from_connections_pure PtrAndCount PtrAndCount (fun _ => 3) _ _ 9 hw⟩

/-- C8: the empty port collection resolves trivially:
`<() as PortCollection>::from_connections` always returns `Some(())`. -/
theorem unit_from_connections_total (cache : Unit) (sample_count : Nat) :
    Unit.from_connections cache sample_count = some () :=
  rfl

/-- C9: the optional layer itself never fails: its resolution always returns
`some`, and any failure of the inner resolution, whatever its reason, is
converted into absence. -/
theorem option_from_connections_never_fails {κ α : Type}
    (inner : κ → Nat → Option α) (cache c2 : κ) (sample_count : Nat)
    (hfail : inner c2 sample_count = none) :
    (Option.from_connections inner cache sample_count).isSome = true
    ∧ Option.from_connections inner c2 sample_count = some none := by
  exact ⟨rfl, by simp [Option.from_connections, hfail]⟩

/-- Witness for C9: an inner resolution that always fails, for a reason that
is not a null pointer, still resolves to `some none` under the optional
layer. -/
theorem option_from_connections_never_fails_witness :
    (fun (_ : Unit) (_ : Nat) => (none : Option Nat)) () 4 = none
    ∧ ((Option.from_connections (fun (_ : Unit) (_ : Nat) => (none : Option Nat)) () 4).isSome = true
        ∧ Option.from_connections (fun (_ : Unit) (_ : Nat) => (none : Option Nat)) () 4
            = some none) :=
  ⟨rfl, option_from_connections_never_fails (fun _ _ => none) () () 4 rfl⟩

/-- C10: for every non-null cached pointer and every sample count,
`InputPort::from_connections` returns `some`: nullness is the only validation
performed at this layer, and the resolved port is exactly the
reinterpretation of the pointer for the given sample count. -/
theorem input_from_connections_nonnull {α : Type} (T : PortType α)
    (p : RawPtr) (sample_count : Nat) (h : p ≠ 0) :
    InputPort.from_connections T p sample_count
      = some ⟨T.input_from_raw ⟨p, h⟩ sample_count⟩ := by
  simp [InputPort.from_connections, NonNull.new, h]

/-- Witness for C10 at the pointer `1` and sample count `5`. -/
theorem input_from_connections_nonnull_witness :
    (1 : RawPtr) ≠ 0
    ∧ InputPort.from_connections PtrAndCount 1 5
        = some ⟨PtrAndCount.input_from_raw ⟨1, one_ne_zero⟩ 5⟩ :=
  ⟨one_ne_zero, input_from_connections_nonnull PtrAndCount 1 5 one_ne_zero⟩

/-- C3: a cursor read returns a value exactly when the read range is
in-bounds and the address is a multiple of the alignment; the returned bytes
are drawn from the space's own data, and on violation of either condition the
read returns nothing and the cursor's position is unchanged. -/
theorem space_cursor_read_spec (s : Space) (cur bad : SpaceCursor) (size align : Nat)
    (hok : cur.position + size ≤ s.data.length ∧ (s.base + cur.position) % align = 0)
    (hbad : ¬(bad.position + size ≤ s.data.length ∧ (s.base + bad.position) % align = 0)) :
    SpaceCursor.read s cur size align
      = (some ((s.data.drop cur.position).take size), ⟨cur.position + size⟩)
    ∧ SpaceCursor.read s bad size align = (none, bad) := by
  refine ⟨?_, ?_⟩
  · unfold SpaceCursor.read
    rw [if_pos hok]
  · unfold SpaceCursor.read
    rw [if_neg hbad]

/-- Witness for C3: in `exampleSpace`, an aligned in-bounds read of two bytes
at position 0 succeeds, and the same read at position 3 fails, leaving the
cursor at 3. -/
theorem space_cursor_read_spec_witness :
    ((SpaceCursor.mk 0).position + 2 ≤ exampleSpace.data.length
      ∧ (exampleSpace.base + (SpaceCursor.mk 0).position) % 2 = 0)
    ∧ ¬((SpaceCursor.mk 3).position + 2 ≤ exampleSpace.data.length
      ∧ (exampleSpace.base + (SpaceCursor.mk 3).position) % 2 = 0)
    ∧ (SpaceCursor.read exampleSpace (SpaceCursor.mk 0) 2 2
        = (some ((exampleSpace.data.drop (SpaceCursor.mk 0).position).take 2),
            ⟨(SpaceCursor.mk 0).position + 2⟩)
      ∧ SpaceCursor.read exampleSpace (SpaceCursor.mk 3) 2 2 = (none, SpaceCursor.mk 3)) := by
  refine ⟨by decide, by decide, ?_⟩
  exact space_cursor_read_spec exampleSpace (SpaceCursor.mk 0) (SpaceCursor.mk 3) 2 2
    (by decide) (by decide)

lemma setBytes_eq_of_lt (bs : List Nat) :
    ∀ (buf : Nat → Nat) (start i : Nat), i < start → setBytes buf start bs i = buf i := by
  induction bs with
  | nil => intro buf start i _; rfl
  | cons b rest ih =>
    intro buf start i h
    show setBytes (fun j => if j = start then b else buf j) (start + 1) rest i = buf i
    rw [ih _ (start + 1) i (by omega)]
    have hne : i ≠ start := by omega
    simp [hne]

lemma setBytes_eq_of_ge (bs : List Nat) :
    ∀ (buf : Nat → Nat) (start i : Nat), start + bs.length ≤ i →
      setBytes buf start bs i = buf i := by
  induction bs with
  | nil => intro buf start i _; rfl
  | cons b rest ih =>
    intro buf start i h
    show setBytes (fun j => if j = start then b else buf j) (start + 1) rest i = buf i
    rw [ih _ (start + 1) i (by simp at h; omega)]
    have hne : i ≠ start := by simp at h; omega
    simp [hne]

lemma readBytes_congr (n : Nat) :
    ∀ (buf1 buf2 : Nat → Nat) (start : Nat),
      (∀ i, start ≤ i → i < start + n → buf1 i = buf2 i) →
      readBytes buf1 start n = readBytes buf2 start n := by
  induction n with
  | zero => intro buf1 buf2 start _; rfl
  | succ n ih =>
    intro buf1 buf2 start h
    show buf1 start :: readBytes buf1 (start + 1) n
        = buf2 start :: readBytes buf2 (start + 1) n
    rw [h start (by omega) (by omega), ih buf1 buf2 (start + 1) (fun i h1 h2 => h i (by omega) (by omega))]

lemma readBytes_setBytes (bs : List Nat) :
    ∀ (buf : Nat → Nat) (start : Nat),
      readBytes (setBytes buf start bs) start bs.length = bs := by
  induction bs with
  | nil => intro buf start; rfl
  | cons b rest ih =>
    intro buf start
    show readBytes (setBytes (fun j => if j = start then b else buf j) (start + 1) rest) start
        (rest.length + 1) = b :: rest
    show setBytes (fun j => if j = start then b else buf j) (start + 1) rest start
        :: readBytes (setBytes (fun j => if j = start then b else buf j) (start + 1) rest)
          (start + 1) rest.length = b :: rest
    rw [setBytes_eq_of_lt rest _ (start + 1) start (by omega), ih _ (start + 1)]
    simp

lemma readBytes_add (m n : Nat) :
    ∀ (buf : Nat → Nat) (start : Nat),
      readBytes buf start (m + n) = readBytes buf start m ++ readBytes buf (start + m) n := by
  induction m with
  | zero => intro buf start; simp [readBytes]
  | succ m ih =>
    intro buf start
    have harg : m + 1 + n = (m + n) + 1 := by omega
    rw [harg]
    show buf start :: readBytes buf (start + 1) (m + n)
        = (buf start :: readBytes buf (start + 1) m) ++ readBytes buf (start + (m + 1)) n
    rw [ih buf (start + 1)]
    have harg2 : start + 1 + m = start + (m + 1) := by omega
    rw [harg2]
    simp

lemma totalLen_cons (c : List Nat) (cs : List (List Nat)) :
    totalLen (c :: cs) = c.length + totalLen cs := by
  simp [totalLen]

lemma decodeU32_setBytes_encodeU32 (buf : Nat → Nat) (off n : Nat)
    (h : n < 4294967296) :
    decodeU32 (setBytes buf off (encodeU32 n)) off = n := by
  have h4 := readBytes_setBytes (encodeU32 n) buf off
  have hlen : (encodeU32 n).length = 4 := by simp [encodeU32]
  rw [hlen] at h4
  norm_num [readBytes, encodeU32] at h4
  simp only [show off + 1 + 1 = off + 2 from by omega,
    show off + 1 + 1 + 1 = off + 3 from by omega] at h4
  obtain ⟨e0, e1, e2, e3⟩ := h4
  unfold decodeU32
  simp only [encodeU32]
  rw [e0, e1, e2, e3]
  omega

lemma reserve_header_ok (w : AtomSpaceWriter) (type_urid : Nat)
    (hx : w.exhausted = false) (hcap : w.pos + 8 ≤ w.cap) :
    w.reserve_header type_urid
      = ({ w with
            buf := setBytes w.buf w.pos (encodeU32 0 ++ encodeU32 type_urid),
            pos := w.pos + 8,
            reservations := ⟨w.pos, w.pos + 8⟩ :: w.reservations }, none) := by
  have hlen : (encodeU32 0 ++ encodeU32 type_urid).length = 8 := by simp [encodeU32]
  unfold AtomSpaceWriter.reserve_header AtomSpaceWriter.write_bytes
  simp only [hlen]
  rw [if_neg (by simp [hx]), if_pos hcap]

lemma commit_ok (w : AtomSpaceWriter) (r : Reservation) (rest : List Reservation)
    (h : w.reservations = r :: rest) :
    w.commit = ({ w with
        buf := setBytes w.buf r.header_offset (encodeU32 (w.pos - r.payload_start)),
        reservations := rest }, none) := by
  unfold AtomSpaceWriter.commit
  rw [h]

lemma write_bytes_ok (w : AtomSpaceWriter) (bs : List Nat)
    (hx : w.exhausted = false) (hcap : w.pos + bs.length ≤ w.cap) :
    w.write_bytes bs
      = ({ w with buf := setBytes w.buf w.pos bs, pos := w.pos + bs.length }, none) := by
  unfold AtomSpaceWriter.write_bytes
  rw [if_neg (by simp [hx]), if_pos hcap]

lemma write_chunks_ok (cs : List (List Nat)) :
    ∀ (w : AtomSpaceWriter), w.exhausted = false → w.pos + totalLen cs ≤ w.cap →
      ∃ w', w.write_chunks cs = (w', none)
        ∧ w'.cap = w.cap ∧ w'.pos = w.pos + totalLen cs
        ∧ w'.reservations = w.reservations ∧ w'.exhausted = false
        ∧ (∀ i, i < w.pos → w'.buf i = w.buf i)
        ∧ readBytes w'.buf w.pos (totalLen cs) = cs.flatten := by
  induction cs with
  | nil =>
    intro w hx _
    exact ⟨w, rfl, rfl, by simp [totalLen], rfl, hx, fun i _ => rfl, by simp [totalLen, readBytes]⟩
  | cons c cs ih =>
    intro w hx hcap
    rw [totalLen_cons] at hcap
    have hwb := write_bytes_ok w c hx (by omega)
    obtain ⟨w', hrun, hcap2, hpos2, hres2, hx2, hpre2, hread2⟩ :=
      ih { w with buf := setBytes w.buf w.pos c, pos := w.pos + c.length } hx
        (by show w.pos + c.length + totalLen cs ≤ w.cap; omega)
    refine ⟨w', ?_, hcap2, ?_, hres2, hx2, ?_, ?_⟩
    · show AtomSpaceWriter.write_chunks w (c :: cs) = (w', none)
      unfold AtomSpaceWriter.write_chunks
      rw [hwb]
      exact hrun
    · rw [hpos2, totalLen_cons]
      show w.pos + c.length + totalLen cs = w.pos + (c.length + totalLen cs)
      omega
    · intro i hi
      rw [hpre2 i (by show i < w.pos + c.length; omega)]
      exact setBytes_eq_of_lt c w.buf w.pos i hi
    · rw [totalLen_cons, readBytes_add c.length (totalLen cs) w'.buf w.pos]
      have hA : readBytes w'.buf w.pos c.length = c := by
        rw [readBytes_congr c.length w'.buf (setBytes w.buf w.pos c) w.pos
          (fun i _ h2 => hpre2 i (by show i < w.pos + c.length; omega))]
        exact readBytes_setBytes c w.buf w.pos
      have hB : readBytes w'.buf (w.pos + c.length) (totalLen cs) = cs.flatten := hread2
      rw [hA, hB]
      simp

lemma reserve_header_new (cap type_urid : Nat) (hcap : 8 ≤ cap) :
    (AtomSpaceWriter.new cap).reserve_header type_urid
      = (headerWriter cap type_urid, none) := by
  have h := reserve_header_ok (AtomSpaceWriter.new cap) type_urid rfl
    (by show 0 + 8 ≤ cap; omega)
  exact h.trans (by rfl)

/-- C4: writing an atom via the reservation protocol (header reserve, then
any number of payload writes, then commit) succeeds whenever the payload fits
the fixed backing, and reading the result back yields a header size field
exactly equal to the total number of payload bytes written and a payload
equal, byte for byte, to the concatenation of the written chunks. -/
theorem atom_write_read_roundtrip (cap type_urid : Nat) (chunks : List (List Nat))
    (hcap : 8 + totalLen chunks ≤ cap) (hsize : totalLen chunks < 4294967296) :
    ∃ w, write_atom cap type_urid chunks = (w, none)
      ∧ decodeU32 w.buf 0 = totalLen chunks
      ∧ readBytes w.buf 8 (totalLen chunks) = chunks.flatten := by
  obtain ⟨w2, hrun, hcap2, hpos2, hres2, hx2, hpre2, hread2⟩ :=
    write_chunks_ok chunks (headerWriter cap type_urid) rfl
      (by show 8 + totalLen chunks ≤ cap; omega)
  have hp : w2.pos = 8 + totalLen chunks := hpos2.trans (by rfl)
  have hcommit := commit_ok w2 ⟨0, 8⟩ [] (hres2.trans (by rfl))
  refine ⟨{ w2 with
      buf := setBytes w2.buf 0 (encodeU32 (w2.pos - 8)),
      reservations := [] }, ?_, ?_, ?_⟩
  · unfold write_atom
    simp only [reserve_header_new cap type_urid (by omega), hrun, hcommit]
  · show decodeU32 (setBytes w2.buf 0 (encodeU32 (w2.pos - 8))) 0 = totalLen chunks
    rw [show w2.pos - 8 = totalLen chunks from by omega]
    exact decodeU32_setBytes_encodeU32 w2.buf 0 (totalLen chunks) hsize
  · show readBytes (setBytes w2.buf 0 (encodeU32 (w2.pos - 8))) 8 (totalLen chunks)
        = chunks.flatten
    rw [readBytes_congr (totalLen chunks) (setBytes w2.buf 0 (encodeU32 (w2.pos - 8)))
      w2.buf 8 (fun i h1 _ => setBytes_eq_of_ge (encodeU32 (w2.pos - 8)) w2.buf 0 i
        (by have h4 : (encodeU32 (w2.pos - 8)).length = 4 := by simp [encodeU32]
            omega))]
    exact hread2

/-- Witness for C4 at capacity 32, type 7, and payload chunks
`[1, 2]` and `[3]`. -/
theorem atom_write_read_roundtrip_witness :
    (8 + totalLen [[1, 2], [3]] ≤ 32 ∧ totalLen [[1, 2], [3]] < 4294967296)
    ∧ ∃ w, write_atom 32 7 [[1, 2], [3]] = (w, none)
      ∧ decodeU32 w.buf 0 = totalLen [[1, 2], [3]]
      ∧ readBytes w.buf 8 (totalLen [[1, 2], [3]]) = [[1, 2], [3]].flatten :=
  ⟨⟨by decide, by decide⟩,
    atom_write_read_roundtrip 32 7 [[1, 2], [3]] (by decide) (by decide)⟩

/-- C5: a write through the writer that would exceed the backing space's
length returns `OutOfSpace`, leaves every byte of the buffer unmodified and
the write position unchanged, and puts the writer in the exhausted state, in
which every subsequent write is a no-op returning the same `OutOfSpace`
error. -/
theorem write_bytes_out_of_space (w : AtomSpaceWriter) (bs : List Nat)
    (h : w.cap < w.pos + bs.length ∨ w.exhausted = true) :
    (w.write_bytes bs).2 = some AtomError.outOfSpace
    ∧ (w.write_bytes bs).1.buf = w.buf
    ∧ (w.write_bytes bs).1.pos = w.pos
    ∧ (w.write_bytes bs).1.exhausted = true
    ∧ ∀ bs2, ((w.write_bytes bs).1).write_bytes bs2
        = ((w.write_bytes bs).1, some AtomError.outOfSpace) := by
  by_cases hx : w.exhausted = true
  · have hw : w.write_bytes bs = (w, some AtomError.outOfSpace) := by
      unfold AtomSpaceWriter.write_bytes
      rw [if_pos hx]
    refine ⟨by rw [hw], by rw [hw], by rw [hw], by rw [hw]; exact hx, ?_⟩
    intro bs2
    rw [hw]
    show w.write_bytes bs2 = (w, some AtomError.outOfSpace)
    unfold AtomSpaceWriter.write_bytes
    rw [if_pos hx]
  · have hcap : ¬(w.pos + bs.length ≤ w.cap) := by
      rcases h with h | h
      · omega
      · exact absurd h hx
    have hw : w.write_bytes bs = ({ w with exhausted := true }, some AtomError.outOfSpace) := by
      unfold AtomSpaceWriter.write_bytes
      rw [if_neg hx, if_neg hcap]
    refine ⟨by rw [hw], by rw [hw], by rw [hw], by rw [hw], ?_⟩
    intro bs2
    rw [hw]
    show AtomSpaceWriter.write_bytes { w with exhausted := true } bs2 = _
    unfold AtomSpaceWriter.write_bytes
    rw [if_pos (show ({ w with exhausted := true } : AtomSpaceWriter).exhausted = true from rfl)]

/-- Witness for C5: a fresh writer over a 2-byte backing, asked to write 3
bytes. -/
theorem write_bytes_out_of_space_witness :
    ((AtomSpaceWriter.new 2).cap < (AtomSpaceWriter.new 2).pos + [1, 2, 3].length
      ∨ (AtomSpaceWriter.new 2).exhausted = true)
    ∧ (((AtomSpaceWriter.new 2).write_bytes [1, 2, 3]).2 = some AtomError.outOfSpace
      ∧ ((AtomSpaceWriter.new 2).write_bytes [1, 2, 3]).1.buf = (AtomSpaceWriter.new 2).buf
      ∧ ((AtomSpaceWriter.new 2).write_bytes [1, 2, 3]).1.pos = (AtomSpaceWriter.new 2).pos
      ∧ ((AtomSpaceWriter.new 2).write_bytes [1, 2, 3]).1.exhausted = true
      ∧ ∀ bs2, (((AtomSpaceWriter.new 2).write_bytes [1, 2, 3]).1).write_bytes bs2
          = (((AtomSpaceWriter.new 2).write_bytes [1, 2, 3]).1, some AtomError.outOfSpace)) :=
  ⟨Or.inl (by decide),
    write_bytes_out_of_space (AtomSpaceWriter.new 2) [1, 2, 3] (Or.inl (by decide))⟩

lemma allocate_offset (v : VecSpace) (n : Nat) : (v.allocate n).2 = v.len := by
  unfold VecSpace.allocate
  split <;> rfl

lemma allocate_len (v : VecSpace) (n : Nat) : (v.allocate n).1.len = v.len + n := by
  unfold VecSpace.allocate
  split <;> rfl

lemma allocate_byte_at (v : VecSpace) (n o : Nat) (h : o < v.len) :
    (v.allocate n).1.byte_at o = v.byte_at o := by
  by_cases hc : v.len + n ≤ v.cap
  · simp [VecSpace.allocate, VecSpace.byte_at, hc]
  · unfold VecSpace.allocate
    rw [if_neg hc]
    show (if v.base + v.cap ≤ v.base + v.cap + o ∧ v.base + v.cap + o < v.base + v.cap + v.len
        then v.mem (v.base + (v.base + v.cap + o - (v.base + v.cap)))
        else v.mem (v.base + v.cap + o)) = v.mem (v.base + o)
    rw [if_pos ⟨by omega, by omega⟩]
    congr 1
    omega

lemma allocate_all_byte_at (ns : List Nat) :
    ∀ (v : VecSpace) (o : Nat), o < v.len →
      (VecSpace.allocate_all v ns).byte_at o = v.byte_at o := by
  induction ns with
  | nil => intro v o _; rfl
  | cons n ns ih =>
    intro v o h
    show (VecSpace.allocate_all (v.allocate n).1 ns).byte_at o = _
    rw [ih (v.allocate n).1 o (by rw [allocate_len]; omega)]
    exact allocate_byte_at v n o h

/-- C6: `allocate` returns the offset at which the new region begins (the
previous length) and extends the length; and after any sequence of later
allocations, however much the backing store grows and relocates, the logical
content at every previously valid offset is unchanged. -/
theorem vec_space_offsets_stable (v : VecSpace) (n : Nat) (ns : List Nat) (o : Nat)
    (h : o < v.len) :
    (v.allocate n).2 = v.len
    ∧ (v.allocate n).1.len = v.len + n
    ∧ (VecSpace.allocate_all v ns).byte_at o = v.byte_at o :=
  ⟨allocate_offset v n, allocate_len v n, allocate_all_byte_at ns v o h⟩

/-- Witness for C6: `demoVec` is at full capacity, so the allocations in
`[2, 5]` relocate its buffer twice; the content at offset 0 is unchanged. -/
theorem vec_space_offsets_stable_witness :
    (0 : Nat) < demoVec.len
    ∧ ((demoVec.allocate 2).2 = demoVec.len
      ∧ (demoVec.allocate 2).1.len = demoVec.len + 2
      ∧ (VecSpace.allocate_all demoVec [2, 5]).byte_at 0 = demoVec.byte_at 0) :=
  ⟨by decide, vec_space_offsets_stable demoVec 2 [2, 5] 0 (by decide)⟩
